import Mathlib

/-!
Verification of the vibium Python client's correlation/dispatch core
(`src/clients/python/src/vibium/client.py`) and its synchronous bridge
(`src/clients/python/src/vibium/_sync_base.py`), as a shallow embedding.

Modelling conventions:
* JSON values are the inductive `JVal`; an incoming JSON object is projected
  onto the fields the client reads (`Msg`).
* `asyncio.Future` is `FutureState` (pending / result set / exception set);
  `future.done()` is `FutureState.done`.
* The `self._pending` dict is an insertion-ordered association list with
  Python-dict semantics (`dictLookup`, `dictSet`, `dictPop`).
* Event handlers are identified by `Nat` references; a behaviour environment
  `beh : Nat → Msg → HAction` says what a handler does when invoked (return
  normally, raise, or call `remove_event_handler`).  Python's `for handler in
  self._event_handlers` over the live, possibly mutated list is modelled by
  index-stepping (`dispatchHandlersAux`); the fuel argument only bounds the
  iteration count (the list never grows and the index increases, so
  `hs.length` steps always suffice) and does not change the semantics.
* One blocking await is modelled by the future's state at the moment the wait
  concludes plus a flag saying whether the deadline fired; the wait concludes
  exactly when the future is done or the deadline fired (`Option` result).
* In `_dispatch_message` only `json.loads` sits inside the `try`, so a line
  that parses to a non-dict value makes `data.get("id")` raise
  `AttributeError`, and a dict whose `id` value is unhashable makes
  `msg_id in self._pending` raise `TypeError`; both escape the method.
  Dispatch therefore returns `Except`: `.error` for an escaping exception.
  The receive loop catches only `CancelledError`/`OSError`, so an `.error`
  stops the stream processing right there — its `finally` block still runs —
  and the exception is recorded as having escaped the loop.
-/

namespace Vibium

/-- JSON values, as decoded by `json.loads`. -/
inductive JVal where
  | null
  | bool (b : Bool)
  | num (n : Int)
  | str (s : String)
  | arr (elems : List JVal)
  | obj (fields : List (String × JVal))

/-- An incoming JSON object, projected onto the fields `_dispatch_message` and
`send` read: `id`, `method`, `params`, `type`, `error`, `message`, `result`.
`none` means the key is absent.  The `id` field keeps its raw JSON value so
that non-integer ids (strings, booleans, and the unhashable lists/objects on
which `msg_id in self._pending` raises `TypeError`) are representable; a JSON
`null` id behaves like an absent key, since `data.get("id")` returns `None`
for both. -/
structure Msg where
  id : Option JVal := none
  method : Option String := none
  params : Option JVal := none
  type : Option String := none
  error : Option String := none
  message : Option String := none
  result : Option JVal := none

/-- Python exceptions that can live in a future. -/
inductive PyExn where
  | connectionError
  | timeoutError
  | other (s : String)
  deriving Repr, DecidableEq

/-- The state of an `asyncio.Future` used as a correlation slot. -/
inductive FutureState where
  | pending
  | result (data : Msg)
  | exn (e : PyExn)

/-- Embedding of `future.done()`. -/
def FutureState.done : FutureState → Bool
  | .pending => false
  | .result _ => true
  | .exn _ => true

/-- Dict lookup `d[k]` / `k in d` with Python-dict semantics on an
association list (first binding wins; with distinct keys there is one). -/
def dictLookup (d : List (Int × FutureState)) (k : Int) : Option FutureState :=
  match d with
  | [] => none
  | (k', v) :: rest => if k' = k then some v else dictLookup rest k

/-- Dict assignment `d[k] = v`: update the binding in place if present, else
append (Python dicts preserve insertion order). -/
def dictSet (d : List (Int × FutureState)) (k : Int) (v : FutureState) :
    List (Int × FutureState) :=
  match d with
  | [] => [(k, v)]
  | (k', v') :: rest =>
      if k' = k then (k, v) :: rest else (k', v') :: dictSet rest k v

/-- Dict removal `d.pop(k, None)`: drop the binding for `k` if present. -/
def dictPop (d : List (Int × FutureState)) (k : Int) : List (Int × FutureState) :=
  match d with
  | [] => []
  | (k', v') :: rest => if k' = k then rest else (k', v') :: dictPop rest k

/-- What a handler does when invoked on an event: return normally, raise an
exception (which `_dispatch_message` swallows), or call
`remove_event_handler(h)` and return. -/
inductive HAction where
  | ok
  | raise
  | remove (h : Nat)
  deriving Repr, DecidableEq

/-- List removal `list.remove(h)`: remove the first occurrence; a missing
element is a no-op (`remove_event_handler` swallows the `ValueError`). -/
def listRemove (hs : List Nat) (h : Nat) : List Nat :=
  match hs with
  | [] => []
  | x :: rest => if x = h then rest else x :: listRemove rest h

/-- The `for handler in self._event_handlers:` loop of `_dispatch_message`,
iterating by index over the live list (Python list-iterator semantics), where
an invoked handler may mutate the list via `remove_event_handler`.  Returns
the final handler list and the handlers invoked, in invocation order.  The
fuel only bounds the number of iterations; starting it at `hs.length` is
always enough because the list never grows and the index increases. -/
def dispatchHandlersAux (beh : Nat → Msg → HAction) (data : Msg) :
    Nat → Nat → List Nat → List Nat × List Nat
  | 0, _, hs => (hs, [])
  | fuel + 1, i, hs =>
      if hlt : i < hs.length then
        let hdl := hs.get ⟨i, hlt⟩
        let hs' :=
          match beh hdl data with
          | .remove h => listRemove hs h
          | _ => hs
        let rest := dispatchHandlersAux beh data fuel (i + 1) hs'
        (rest.1, hdl :: rest.2)
      else (hs, [])

/-- Dispatching one event to the handler list (the event branch of
`_dispatch_message`). -/
def dispatchHandlers (beh : Nat → Msg → HAction) (data : Msg) (hs : List Nat) :
    List Nat × List Nat :=
  dispatchHandlersAux beh data hs.length 0 hs

/-- The mutable state of a `BiDiClient`: `_next_id`, `_pending`,
`_event_handlers`. -/
structure ClientState where
  nextId : Int
  pending : List (Int × FutureState)
  handlers : List Nat

/-- The state of a freshly constructed `BiDiClient`. -/
def ClientState.init : ClientState :=
  { nextId := 1, pending := [], handlers := [] }

/-- One line handed to `_dispatch_message`, by `json.loads` outcome: the
parse raises (malformed / non-JSON input, caught by the `except`), or it
yields a valid JSON value that is not a dict (list, number, string, boolean
or null — `v` is that value), or it yields a dict, projected onto `Msg`.
Only the first case is inside the `try`; on a non-dict the following
`data.get("id")` raises `AttributeError` out of the method. -/
inductive Line where
  | malformed
  | nonObject (v : JVal)
  | wellFormed (m : Msg)

/-- One item read by `_receive_loop` before EOF: a blank line (skipped by the
`if not line: continue` guard) or a line passed to `_dispatch_message`. -/
inductive RxItem where
  | blank
  | line (l : Line)

/-- The integer key, if any, under which `msg_id in self._pending` finds the
message's id in the int-keyed pending dict: an integer id is itself; Python's
`True`/`False` equal (and hash like) `1`/`0`, so a boolean id aliases those
keys; strings and `null` are hashable but never equal an int key; lists and
objects are unhashable (the `in` test raises before any comparison, handled
separately in dispatch). -/
def msgIdKey (data : Msg) : Option Int :=
  match data.id with
  | some (JVal.num n) => some n
  | some (JVal.bool b) => some (if b then 1 else 0)
  | _ => none

/-- The response branch of `_dispatch_message`, reached for a hashable
non-`None` id: if the id is a pending key and the future not done, store the
message as its result; a done future, or an id that is not a pending key, is
a no-op. -/
def resolveById (st : ClientState) (data : Msg) : ClientState × List Nat :=
  match msgIdKey data with
  | some k =>
      match dictLookup st.pending k with
      | some fut =>
          if fut.done then (st, [])
          else ({ st with pending := dictSet st.pending k (.result data) }, [])
      | none => (st, [])
  | none => (st, [])

/-- Embedding of `BiDiClient._dispatch_message`: parse one line and route it.
On success returns the new client state and the list of handlers invoked (for
events); `.error` is a Python exception escaping the method.  A `json.loads`
failure is caught and dropped; a parsed non-dict makes `data.get("id")` raise
`AttributeError`; a dict id of `null` (or absent) with a `method` key fans
the event out to the handlers; an unhashable id (list/object) makes
`msg_id in self._pending` raise `TypeError`; otherwise the response branch
runs (`resolveById`). -/
def dispatchMessage (beh : Nat → Msg → HAction) (st : ClientState) (l : Line) :
    Except PyExn (ClientState × List Nat) :=
  match l with
  | .malformed => .ok (st, [])
  | .nonObject _ => .error (.other "AttributeError")
  | .wellFormed data =>
      match data.id with
      | none | some JVal.null =>
          if data.method.isSome then
            let r := dispatchHandlers beh data st.handlers
            .ok ({ st with handlers := r.1 }, r.2)
          else .ok (st, [])
      | some (JVal.arr _) => .error (.other "TypeError")
      | some (JVal.obj _) => .error (.other "TypeError")
      | some _ => .ok (resolveById st data)

/-- Lines on which `_dispatch_message` raises: a parsed non-dict
(`AttributeError` from `data.get`) and a dict with an unhashable id value
(`TypeError` from the `in` test). -/
def lineCrashes : Line → Bool
  | .malformed => false
  | .nonObject _ => true
  | .wellFormed data =>
      match data.id with
      | some (JVal.arr _) => true
      | some (JVal.obj _) => true
      | _ => false

/-- Embedding of `BiDiClient.on_event`: append a handler. -/
def onEvent (st : ClientState) (h : Nat) : ClientState :=
  { st with handlers := st.handlers ++ [h] }

/-- Embedding of `BiDiClient.remove_event_handler`: remove a handler,
ignoring absence. -/
def removeEventHandler (st : ClientState) (h : Nat) : ClientState :=
  { st with handlers := listRemove st.handlers h }

/-- Stream items on which the `while True` body of `_receive_loop` raises
(blank lines are skipped before dispatch, so they never do). -/
def itemCrashes : RxItem → Bool
  | .blank => false
  | .line l => lineCrashes l

/-- The `while True` loop of `_receive_loop` over a stream prefix: blank
lines are skipped, every other line goes to `_dispatch_message`; an
exception escaping dispatch is not caught (only `CancelledError`/`OSError`
are), so it ends the loop right there.  Returns the state when the loop body
exits, the handler-invocation log, and the escaped exception if any (`none`
for a normal end of stream from EOF / cancellation / read error). -/
def runReceive (beh : Nat → Msg → HAction) :
    ClientState → List RxItem → ClientState × List Nat × Option PyExn
  | st, [] => (st, [], none)
  | st, .blank :: rest => runReceive beh st rest
  | st, .line l :: rest =>
      match dispatchMessage beh st l with
      | .ok r =>
          let rr := runReceive beh r.1 rest
          (rr.1, r.2 ++ rr.2.1, rr.2.2)
      | .error e => (st, [], some e)

/-- The client state when the loop body of `_receive_loop` exits (by end of
stream or by an escaped exception), before the `finally` block. -/
def rxRun (beh : Nat → Msg → HAction) (st : ClientState)
    (items : List RxItem) : ClientState :=
  (runReceive beh st items).1

/-- The `finally` block of `_receive_loop`: every pending future gets
`ConnectionError("Connection closed")`; done futures are left alone. -/
def finalizePending (p : List (Int × FutureState)) : List (Int × FutureState) :=
  p.map (fun kv => (kv.1, if kv.2.done then kv.2 else .exn .connectionError))

/-- Embedding of `BiDiClient._receive_loop`: run the loop body over the
stream prefix, then the `finally` block — which runs both on a normal end of
stream and on an escaped exception.  Returns the final state, the
handler-invocation log, and the exception that escaped the loop, if any. -/
def receiveLoop (beh : Nat → Msg → HAction) (st : ClientState)
    (items : List RxItem) : ClientState × List Nat × Option PyExn :=
  let r := runReceive beh st items
  ({ r.1 with pending := finalizePending r.1.pending }, r.2.1, r.2.2)

/-- The first well-formed message in the stream whose `id` lands on the
pending key `k` — the response that the correlation table should hand to
request `k`. -/
def firstResponseFor (items : List RxItem) (k : Int) : Option Msg :=
  match items with
  | [] => none
  | .blank :: rest => firstResponseFor rest k
  | .line .malformed :: rest => firstResponseFor rest k
  | .line (.nonObject _) :: rest => firstResponseFor rest k
  | .line (.wellFormed m) :: rest =>
      if msgIdKey m = some k then some m else firstResponseFor rest k

/-- The synchronous prefix of `BiDiClient.send`: allocate `msg_id` from
`_next_id`, build the command object (`params or {}`), create the future and
register it in `_pending`.  Returns the new state, the allocated id and the
encoded command. -/
def sendStart (st : ClientState) (method : String) (params : Option JVal) :
    ClientState × Int × Msg :=
  let msgId := st.nextId
  let command : Msg :=
    { id := some (JVal.num msgId), method := some method,
      params := some (params.getD (JVal.obj [])) }
  ({ st with nextId := st.nextId + 1,
             pending := dictSet st.pending msgId .pending },
   msgId, command)

/-- The observable outcome of one `BiDiClient.send` call: a returned result,
a raised `BiDiError`, a raised `TimeoutError` from the `wait_for` deadline,
or the future's own stored exception re-raised by the await. -/
inductive SendOutcome where
  | ok (result : Option JVal)
  | bidiError (error message : String)
  | timedOut
  | futureExn (e : PyExn)

/-- The waiting half of `BiDiClient.send`: `asyncio.wait_for(future, timeout)`
followed by the error/result unpacking.  The wait concludes exactly when the
future is done or the deadline fires (`none` = still blocked); a future that
is already done when the deadline fires yields its stored outcome, not a
timeout.  On a delivered response, `type == "error"` raises
`BiDiError(response.get("error", "unknown"), response.get("message",
"Unknown error"))`, otherwise `response.get("result")` is returned. -/
def sendAwait (fut : FutureState) (deadlineFired : Bool) : Option SendOutcome :=
  match fut with
  | .result resp =>
      if resp.type = some "error" then
        some (.bidiError (resp.error.getD "unknown")
                         (resp.message.getD "Unknown error"))
      else some (.ok resp.result)
  | .exn e => some (.futureExn e)
  | .pending => if deadlineFired then some .timedOut else none

/-- Completion of one `BiDiClient.send` call on the client state: read the
future out of `_pending`, conclude the wait, and run the `finally` block
(`self._pending.pop(msg_id, None)`), which executes on every outcome. -/
def sendFinish (st : ClientState) (msgId : Int) (deadlineFired : Bool) :
    Option (ClientState × SendOutcome) :=
  match dictLookup st.pending msgId with
  | none => none
  | some fut =>
      match sendAwait fut deadlineFired with
      | none => none
      | some o => some ({ st with pending := dictPop st.pending msgId }, o)

/-- Run the synchronous prefixes of a sequence of `send` calls back to back,
collecting the assigned request ids in order. -/
def runSends (st : ClientState) :
    List (String × Option JVal) → ClientState × List Int
  | [] => (st, [])
  | (m, p) :: rest =>
      let r := sendStart st m p
      let rr := runSends r.1 rest
      (rr.1, r.2.1 :: rr.2)

/-- The replay loop of `BiDiClient.connect`: each buffered line goes through
`_dispatch_message`; an exception escaping dispatch propagates out of
`connect` itself. -/
def replayLines (beh : Nat → Msg → HAction) :
    ClientState → List Line → Except PyExn (ClientState × List Nat)
  | st, [] => .ok (st, [])
  | st, l :: rest =>
      match dispatchMessage beh st l with
      | .ok r =>
          match replayLines beh r.1 rest with
          | .ok rr => .ok (rr.1, r.2 ++ rr.2)
          | .error e => .error e
      | .error e => .error e

/-- Embedding of `BiDiClient.connect`: build a fresh client (empty `_pending`,
empty `_event_handlers`), start the receive loop, and — if the process object
carries `_pre_ready_lines` — replay each buffered line through
`_dispatch_message` and delete the buffer.  Returns the resulting client
state and the handlers invoked during the replay (or the exception a replay
line raised). -/
def connectClient (beh : Nat → Msg → HAction)
    (preReadyLines : Option (List Line)) :
    Except PyExn (ClientState × List Nat) :=
  let client := ClientState.init
  match preReadyLines with
  | none => .ok (client, [])
  | some lines => replayLines beh client lines

/-- State of the `concurrent.futures.Future` produced by
`asyncio.run_coroutine_threadsafe` in `_EventLoopThread.run`. -/
inductive CFutureState where
  | pending
  | result (v : JVal)
  | exn (e : PyExn)

/-- The observable outcome of one `_EventLoopThread.run` call. -/
inductive RunOutcome where
  | ok (v : JVal)
  | raised (e : PyExn)
  | timedOut
  | runtimeError

/-- Embedding of `_EventLoopThread.run`: raise `RuntimeError` when no loop
was started; otherwise block on `future.result(timeout)`.  `fut` is the
future's state at the moment the wait concludes and `deadlineFired` says
whether the deadline fired with the future still pending; `none` means the
call is still blocked.  A done future yields its stored value, or re-raises
its stored exception unchanged (the `future.done()` check in the `except`
block, which distinguishes a coroutine-raised `TimeoutError` from the wait
itself timing out); only a future still pending at the deadline is cancelled
and turned into the bridge's own `TimeoutError`. -/
def eltRun (loopStarted : Bool) (fut : CFutureState) (deadlineFired : Bool) :
    Option RunOutcome :=
  match loopStarted with
  | false => some .runtimeError
  | true =>
      match fut with
      | .result v => some (.ok v)
      | .exn e => some (.raised e)
      | .pending => if deadlineFired then some .timedOut else none

/-- One atomic state change of a `BiDiClient`, as performed by the code: the
synchronous prefix of `send`, a dispatched line, the receive loop's
`finally` block, a `send` call's `finally` block, `on_event`, or
`remove_event_handler`. -/
inductive Step : ClientState → ClientState → Prop where
  | send (st : ClientState) (method : String) (params : Option JVal) :
      Step st (sendStart st method params).1
  | receive (st : ClientState) (beh : Nat → Msg → HAction) (l : Line)
      (st' : ClientState) (log : List Nat)
      (h : dispatchMessage beh st l = .ok (st', log)) : Step st st'
  | closeLoop (st : ClientState) :
      Step st { st with pending := finalizePending st.pending }
  | senderCleanup (st : ClientState) (k : Int) :
      Step st { st with pending := dictPop st.pending k }
  | register (st : ClientState) (h : Nat) : Step st (onEvent st h)
  | deregister (st : ClientState) (h : Nat) : Step st (removeEventHandler st h)

/-- Client states reachable from a freshly constructed client. -/
inductive Reachable : ClientState → Prop where
  | init : Reachable ClientState.init
  | step {st st' : ClientState} : Reachable st → Step st st' → Reachable st'

/-- The correlation-table invariant: `_next_id` is at least 1, every pending
key is a positive integer below `_next_id`, the only exception ever stored in
a slot is the connection-closed one, and keys are distinct. -/
def Inv (st : ClientState) : Prop :=
  1 ≤ st.nextId ∧
  (∀ kv ∈ st.pending, 0 < kv.1 ∧ kv.1 < st.nextId) ∧
  (∀ kv ∈ st.pending, ∀ e, kv.2 = FutureState.exn e → e = PyExn.connectionError) ∧
  (st.pending.map Prod.fst).Nodup

theorem dictLookup_set_self (d : List (Int × FutureState)) (k : Int)
    (v : FutureState) : dictLookup (dictSet d k v) k = some v := by
  induction d with
  | nil => simp [dictSet, dictLookup]
  | cons kv rest ih =>
      obtain ⟨k', v'⟩ := kv
      by_cases h : k' = k
      · subst h; simp [dictSet, dictLookup]
      · simp [dictSet, dictLookup, h, ih]

theorem dictLookup_set_other (d : List (Int × FutureState)) (k k' : Int)
    (v : FutureState) (hne : k' ≠ k) :
    dictLookup (dictSet d k v) k' = dictLookup d k' := by
  induction d with
  | nil => simp [dictSet, dictLookup, Ne.symm hne]
  | cons kv rest ih =>
      obtain ⟨a, b⟩ := kv
      by_cases h : a = k
      · subst h
        simp [dictSet, dictLookup, Ne.symm hne]
      · simp [dictSet, dictLookup, h, ih]

theorem dictLookup_mem (d : List (Int × FutureState)) (k : Int)
    (v : FutureState) (h : dictLookup d k = some v) : (k, v) ∈ d := by
  induction d with
  | nil => simp [dictLookup] at h
  | cons kv rest ih =>
      obtain ⟨a, b⟩ := kv
      by_cases hak : a = k
      · subst hak
        simp [dictLookup] at h
        simp [h]
      · simp [dictLookup, hak] at h
        exact List.mem_cons_of_mem _ (ih h)

theorem dictLookup_none_of_bound (d : List (Int × FutureState)) (n : Int)
    (hb : ∀ kv ∈ d, kv.1 < n) : dictLookup d n = none := by
  induction d with
  | nil => rfl
  | cons kv rest ih =>
      obtain ⟨a, b⟩ := kv
      have ha : a < n := hb (a, b) (List.mem_cons_self _ _)
      have hne : a ≠ n := ne_of_lt ha
      simp [dictLookup, hne]
      exact ih fun kv hkv => hb kv (List.mem_cons_of_mem _ hkv)

theorem dictSet_mem (d : List (Int × FutureState)) (k : Int) (v : FutureState)
    (kv : Int × FutureState) (h : kv ∈ dictSet d k v) :
    kv = (k, v) ∨ kv ∈ d := by
  induction d with
  | nil => simp [dictSet] at h; simp [h]
  | cons hd rest ih =>
      obtain ⟨a, b⟩ := hd
      by_cases hak : a = k
      · subst hak
        simp [dictSet] at h
        rcases h with h | h
        · exact Or.inl h
        · exact Or.inr (List.mem_cons_of_mem _ h)
      · simp [dictSet, hak] at h
        rcases h with h | h
        · exact Or.inr (by simp [h])
        · rcases ih h with h' | h'
          · exact Or.inl h'
          · exact Or.inr (List.mem_cons_of_mem _ h')

theorem dictSet_keys_of_present (d : List (Int × FutureState)) (k : Int)
    (v w : FutureState) (h : dictLookup d k = some w) :
    (dictSet d k v).map Prod.fst = d.map Prod.fst := by
  induction d with
  | nil => simp [dictLookup] at h
  | cons hd rest ih =>
      obtain ⟨a, b⟩ := hd
      by_cases hak : a = k
      · subst hak; simp [dictSet]
      · simp [dictLookup, hak] at h
        simp [dictSet, hak, ih h]

theorem dictSet_keys_of_absent (d : List (Int × FutureState)) (k : Int)
    (v : FutureState) (h : dictLookup d k = none) :
    (dictSet d k v).map Prod.fst = d.map Prod.fst ++ [k] := by
  induction d with
  | nil => simp [dictSet]
  | cons hd rest ih =>
      obtain ⟨a, b⟩ := hd
      by_cases hak : a = k
      · subst hak; simp [dictLookup] at h
      · simp [dictLookup, hak] at h
        simp [dictSet, hak, ih h]

theorem dictPop_sublist (d : List (Int × FutureState)) (k : Int) :
    (dictPop d k).Sublist d := by
  induction d with
  | nil => simp [dictPop]
  | cons hd rest ih =>
      obtain ⟨a, b⟩ := hd
      by_cases hak : a = k
      · simp only [dictPop, if_pos hak]
        exact List.sublist_cons_self _ _
      · simp only [dictPop, if_neg hak]
        exact List.Sublist.cons₂ _ ih

theorem foldl_dictPop_keys (d : List (Int × FutureState)) :
    List.foldl dictPop d (d.map Prod.fst) = [] := by
  induction d with
  | nil => rfl
  | cons hd rest ih =>
      obtain ⟨a, b⟩ := hd
      simpa [dictPop] using ih

theorem finalizePending_keys (p : List (Int × FutureState)) :
    (finalizePending p).map Prod.fst = p.map Prod.fst := by
  simp [finalizePending]

theorem dictLookup_finalize (p : List (Int × FutureState)) (k : Int) :
    dictLookup (finalizePending p) k =
      (dictLookup p k).map
        (fun f => if f.done then f else FutureState.exn PyExn.connectionError) := by
  induction p with
  | nil => rfl
  | cons hd rest ih =>
      obtain ⟨a, b⟩ := hd
      by_cases hak : a = k
      · subst hak; simp [finalizePending, dictLookup]
      · simpa [finalizePending, dictLookup, hak] using ih

theorem resolveById_lookup_preserved (st : ClientState) (data : Msg) (k : Int)
    (hne : msgIdKey data ≠ some k) :
    dictLookup ((resolveById st data).1).pending k = dictLookup st.pending k := by
  cases hkey : msgIdKey data with
  | none => simp [resolveById, hkey]
  | some j =>
      have hjk : k ≠ j := by
        intro h
        subst h
        exact hne hkey
      cases hlu : dictLookup st.pending j with
      | none => simp [resolveById, hkey, hlu]
      | some fut =>
          by_cases hd : fut.done
          · simp [resolveById, hkey, hlu, hd]
          · simp [resolveById, hkey, hlu, hd,
              dictLookup_set_other _ _ _ _ hjk]

theorem resolveById_store (st : ClientState) (data : Msg) (k : Int)
    (hkey : msgIdKey data = some k)
    (hp : dictLookup st.pending k = some .pending) :
    resolveById st data =
      ({ st with pending := dictSet st.pending k (.result data) }, []) := by
  simp [resolveById, hkey, hp, FutureState.done]

theorem resolveById_noop (st : ClientState) (data : Msg) (k : Int)
    (f : FutureState) (hkey : msgIdKey data = some k)
    (hlu : dictLookup st.pending k = some f) (hd : f.done = true) :
    resolveById st data = (st, []) := by
  simp [resolveById, hkey, hlu, hd]

theorem resolveById_pending_cases (st : ClientState) (data : Msg) :
    (resolveById st data).1 = st ∨
    ∃ j, msgIdKey data = some j ∧
      dictLookup st.pending j = some FutureState.pending ∧
      (resolveById st data).1 =
        { st with pending := dictSet st.pending j (.result data) } := by
  cases hkey : msgIdKey data with
  | none => exact Or.inl (by simp [resolveById, hkey])
  | some j =>
      cases hlu : dictLookup st.pending j with
      | none => exact Or.inl (by simp [resolveById, hkey, hlu])
      | some fut =>
          by_cases hd : fut.done
          · exact Or.inl (by simp [resolveById, hkey, hlu, hd])
          · have hfp : fut = FutureState.pending := by
              cases fut with
              | pending => rfl
              | result d => simp [FutureState.done] at hd
              | exn e => simp [FutureState.done] at hd
            subst hfp
            exact Or.inr ⟨j, rfl, hlu,
              by simp [resolveById, hkey, hlu, FutureState.done]⟩

theorem dispatchMessage_of_key (beh : Nat → Msg → HAction) (st : ClientState)
    (data : Msg) (k : Int) (hkey : msgIdKey data = some k) :
    dispatchMessage beh st (.wellFormed data) = .ok (resolveById st data) := by
  cases hid : data.id with
  | none => simp [msgIdKey, hid] at hkey
  | some v =>
      cases v <;> simp [msgIdKey, hid] at hkey <;> simp [dispatchMessage, hid]

theorem dispatchMessage_store (beh : Nat → Msg → HAction) (st : ClientState)
    (data : Msg) (k : Int) (hkey : msgIdKey data = some k)
    (hp : dictLookup st.pending k = some .pending) :
    dispatchMessage beh st (.wellFormed data) =
      .ok ({ st with pending := dictSet st.pending k (.result data) }, []) := by
  rw [dispatchMessage_of_key beh st data k hkey,
      resolveById_store st data k hkey hp]

theorem dispatchMessage_noop_done (beh : Nat → Msg → HAction)
    (st : ClientState) (data : Msg) (k : Int) (f : FutureState)
    (hkey : msgIdKey data = some k) (hlu : dictLookup st.pending k = some f)
    (hd : f.done = true) :
    dispatchMessage beh st (.wellFormed data) = .ok (st, []) := by
  rw [dispatchMessage_of_key beh st data k hkey,
      resolveById_noop st data k f hkey hlu hd]

theorem dispatchMessage_ok_of_no_crash (beh : Nat → Msg → HAction)
    (st : ClientState) (l : Line) (hcr : lineCrashes l = false) :
    ∃ r, dispatchMessage beh st l = .ok r := by
  cases l with
  | malformed => exact ⟨(st, []), rfl⟩
  | nonObject v => simp [lineCrashes] at hcr
  | wellFormed m =>
      cases hid : m.id with
      | none =>
          by_cases hmeth : m.method.isSome
          · exact ⟨({ st with
                handlers := (dispatchHandlers beh m st.handlers).1 },
                (dispatchHandlers beh m st.handlers).2),
              by simp [dispatchMessage, hid, hmeth]⟩
          · exact ⟨(st, []), by simp [dispatchMessage, hid, hmeth]⟩
      | some v =>
          cases v with
          | null =>
              by_cases hmeth : m.method.isSome
              · exact ⟨({ st with
                    handlers := (dispatchHandlers beh m st.handlers).1 },
                    (dispatchHandlers beh m st.handlers).2),
                  by simp [dispatchMessage, hid, hmeth]⟩
              · exact ⟨(st, []), by simp [dispatchMessage, hid, hmeth]⟩
          | arr xs => simp [lineCrashes, hid] at hcr
          | obj fs => simp [lineCrashes, hid] at hcr
          | num n => exact ⟨resolveById st m, by simp [dispatchMessage, hid]⟩
          | bool b => exact ⟨resolveById st m, by simp [dispatchMessage, hid]⟩
          | str a => exact ⟨resolveById st m, by simp [dispatchMessage, hid]⟩

theorem dispatchMessage_ok_lookup_preserved (beh : Nat → Msg → HAction)
    (st : ClientState) (l : Line) (k : Int) (st' : ClientState)
    (log : List Nat) (hok : dispatchMessage beh st l = .ok (st', log))
    (hnm : ∀ m, l = Line.wellFormed m → msgIdKey m ≠ some k) :
    dictLookup st'.pending k = dictLookup st.pending k := by
  cases l with
  | malformed =>
      simp only [dispatchMessage, Except.ok.injEq, Prod.mk.injEq] at hok
      rw [← hok.1]
  | nonObject v => simp [dispatchMessage] at hok
  | wellFormed m =>
      have hm := hnm m rfl
      cases hid : m.id with
      | none =>
          simp only [dispatchMessage, hid] at hok
          split at hok <;>
            · simp only [Except.ok.injEq, Prod.mk.injEq] at hok
              rw [← hok.1]
      | some v =>
          cases v with
          | null =>
              simp only [dispatchMessage, hid] at hok
              split at hok <;>
                · simp only [Except.ok.injEq, Prod.mk.injEq] at hok
                  rw [← hok.1]
          | arr xs => simp [dispatchMessage, hid] at hok
          | obj fs => simp [dispatchMessage, hid] at hok
          | num n =>
              simp only [dispatchMessage, hid, Except.ok.injEq] at hok
              have hst : st' = (resolveById st m).1 :=
                (congrArg Prod.fst hok).symm
              rw [hst]
              exact resolveById_lookup_preserved st m k hm
          | bool b =>
              simp only [dispatchMessage, hid, Except.ok.injEq] at hok
              have hst : st' = (resolveById st m).1 :=
                (congrArg Prod.fst hok).symm
              rw [hst]
              exact resolveById_lookup_preserved st m k hm
          | str a =>
              simp only [dispatchMessage, hid, Except.ok.injEq] at hok
              have hst : st' = (resolveById st m).1 :=
                (congrArg Prod.fst hok).symm
              rw [hst]
              exact resolveById_lookup_preserved st m k hm

theorem dispatchMessage_ok_lookup_done (beh : Nat → Msg → HAction)
    (st : ClientState) (l : Line) (k : Int) (f : FutureState)
    (st' : ClientState) (log : List Nat)
    (hok : dispatchMessage beh st l = .ok (st', log))
    (hlu : dictLookup st.pending k = some f) (hd : f.done = true) :
    dictLookup st'.pending k = some f := by
  by_cases hm : ∃ m, l = Line.wellFormed m ∧ msgIdKey m = some k
  · obtain ⟨m, rfl, hkey⟩ := hm
    rw [dispatchMessage_noop_done beh st m k f hkey hlu hd] at hok
    simp only [Except.ok.injEq, Prod.mk.injEq] at hok
    rw [← hok.1]
    exact hlu
  · push_neg at hm
    rw [dispatchMessage_ok_lookup_preserved beh st l k st' log hok hm]
    exact hlu

theorem rxRun_blank (beh : Nat → Msg → HAction) (st : ClientState)
    (rest : List RxItem) :
    rxRun beh st (.blank :: rest) = rxRun beh st rest := rfl

theorem rxRun_cons_ok (beh : Nat → Msg → HAction) (st : ClientState)
    (l : Line) (rest : List RxItem) (st' : ClientState) (log : List Nat)
    (hok : dispatchMessage beh st l = .ok (st', log)) :
    rxRun beh st (.line l :: rest) = rxRun beh st' rest := by
  simp [rxRun, runReceive, hok]

theorem rxRun_cons_error (beh : Nat → Msg → HAction) (st : ClientState)
    (l : Line) (rest : List RxItem) (e : PyExn)
    (herr : dispatchMessage beh st l = .error e) :
    rxRun beh st (.line l :: rest) = st := by
  simp [rxRun, runReceive, herr]

theorem rxRun_lookup_done (beh : Nat → Msg → HAction) (items : List RxItem)
    (st : ClientState) (k : Int) (f : FutureState)
    (hlu : dictLookup st.pending k = some f) (hd : f.done = true) :
    dictLookup (rxRun beh st items).pending k = some f := by
  induction items generalizing st with
  | nil => exact hlu
  | cons it rest ih =>
      cases it with
      | blank =>
          rw [rxRun_blank]
          exact ih st hlu
      | line l =>
          cases hok : dispatchMessage beh st l with
          | error e =>
              rw [rxRun_cons_error beh st l rest e hok]
              exact hlu
          | ok r =>
              rw [rxRun_cons_ok beh st l rest r.1 r.2 hok]
              exact ih r.1
                (dispatchMessage_ok_lookup_done beh st l k f r.1 r.2 hok hlu hd)

theorem rxRun_lookup_pending (beh : Nat → Msg → HAction) (items : List RxItem)
    (st : ClientState) (k : Int)
    (hnc : ∀ it ∈ items, itemCrashes it = false)
    (hp : dictLookup st.pending k = some .pending) :
    dictLookup (rxRun beh st items).pending k =
      match firstResponseFor items k with
      | some m => some (.result m)
      | none => some .pending := by
  induction items generalizing st with
  | nil => simpa [firstResponseFor] using hp
  | cons it rest ih =>
      have hnc' : ∀ it ∈ rest, itemCrashes it = false :=
        fun it h => hnc it (List.mem_cons_of_mem _ h)
      cases it with
      | blank =>
          rw [rxRun_blank]
          simpa [firstResponseFor] using ih st hnc' hp
      | line l =>
          have hcr : lineCrashes l = false := by
            simpa [itemCrashes] using hnc (.line l) (List.mem_cons_self _ _)
          cases l with
          | malformed =>
              rw [rxRun_cons_ok beh st .malformed rest st [] rfl]
              simpa [firstResponseFor] using ih st hnc' hp
          | nonObject v => simp [lineCrashes] at hcr
          | wellFormed m =>
              by_cases hkey : msgIdKey m = some k
              · rw [rxRun_cons_ok beh st _ rest _ []
                      (dispatchMessage_store beh st m k hkey hp)]
                rw [rxRun_lookup_done beh rest _ k (FutureState.result m)
                      (dictLookup_set_self _ _ _) rfl]
                simp [firstResponseFor, hkey]
              · obtain ⟨r, hok⟩ := dispatchMessage_ok_of_no_crash beh st _ hcr
                have hpres : dictLookup r.1.pending k =
                    some FutureState.pending := by
                  rw [dispatchMessage_ok_lookup_preserved beh st _ k r.1 r.2 hok
                    (by intro m' hm'
                        injection hm' with h'
                        subst h'
                        exact hkey)]
                  exact hp
                rw [rxRun_cons_ok beh st _ rest r.1 r.2 hok]
                rw [ih r.1 hnc' hpres]
                simp [firstResponseFor, hkey]

theorem firstResponseFor_id (items : List RxItem) (k : Int) (m : Msg)
    (h : firstResponseFor items k = some m) : msgIdKey m = some k := by
  induction items with
  | nil => simp [firstResponseFor] at h
  | cons it rest ih =>
      cases it with
      | blank => exact ih (by simpa [firstResponseFor] using h)
      | line l =>
          cases l with
          | malformed => exact ih (by simpa [firstResponseFor] using h)
          | nonObject v => exact ih (by simpa [firstResponseFor] using h)
          | wellFormed m' =>
              by_cases hkey : msgIdKey m' = some k
              · simp [firstResponseFor, hkey] at h
                rw [← h]
                exact hkey
              · simp only [firstResponseFor, if_neg hkey] at h
                exact ih h

theorem dispatchHandlersAux_no_removal (beh : Nat → Msg → HAction) (data : Msg)
    (fuel : Nat) :
    ∀ (i : Nat) (hs : List Nat), hs.length - i ≤ fuel →
      (∀ h ∈ hs, beh h data = .ok ∨ beh h data = .raise) →
      dispatchHandlersAux beh data fuel i hs = (hs, hs.drop i) := by
  induction fuel with
  | zero =>
      intro i hs hfuel _
      have hle : hs.length ≤ i := by omega
      simp [dispatchHandlersAux, List.drop_eq_nil_of_le hle]
  | succ fuel ih =>
      intro i hs hfuel hbeh
      simp only [dispatchHandlersAux]
      split
      · next hlt =>
          have hmem : hs.get ⟨i, hlt⟩ ∈ hs := List.get_mem hs i hlt
          rcases hbeh _ hmem with hact | hact <;>
            · simp only [hact]
              rw [ih (i + 1) hs (by omega) hbeh]
              rw [List.drop_eq_getElem_cons hlt]
              simp [List.get_eq_getElem]
      · next hlt =>
          have hle : hs.length ≤ i := by omega
          simp [List.drop_eq_nil_of_le hle]

theorem dispatchHandlers_no_removal (beh : Nat → Msg → HAction) (data : Msg)
    (hs : List Nat)
    (hbeh : ∀ h ∈ hs, beh h data = .ok ∨ beh h data = .raise) :
    dispatchHandlers beh data hs = (hs, hs) := by
  have := dispatchHandlersAux_no_removal beh data hs.length 0 hs (by omega) hbeh
  simpa [dispatchHandlers] using this

theorem inv_init : Inv ClientState.init := by
  refine ⟨le_refl 1, ?_, ?_, ?_⟩ <;> simp [ClientState.init, Inv]

theorem inv_resolveById {st : ClientState} (hinv : Inv st) (data : Msg) :
    Inv ((resolveById st data).1) := by
  obtain ⟨h1, hb, hx, hnd⟩ := hinv
  rcases resolveById_pending_cases st data with heq | ⟨j, _, hlu, heq⟩
  · rw [heq]
    exact ⟨h1, hb, hx, hnd⟩
  · rw [heq]
    have hmem : (j, FutureState.pending) ∈ st.pending :=
      dictLookup_mem _ _ _ hlu
    refine ⟨h1, ?_, ?_, ?_⟩
    · intro kv hkv
      rcases dictSet_mem _ _ _ _ hkv with rfl | hold
      · exact hb (j, FutureState.pending) hmem
      · exact hb kv hold
    · intro kv hkv e he
      rcases dictSet_mem _ _ _ _ hkv with rfl | hold
      · simp at he
      · exact hx kv hold e he
    · show ((dictSet st.pending j (.result data)).map Prod.fst).Nodup
      rw [dictSet_keys_of_present _ _ _ FutureState.pending hlu]
      exact hnd

theorem inv_step {st st' : ClientState} (hinv : Inv st) (hstep : Step st st') :
    Inv st' := by
  obtain ⟨h1, hb, hx, hnd⟩ := hinv
  cases hstep with
  | send method params =>
      have hlu : dictLookup st.pending st.nextId = none :=
        dictLookup_none_of_bound _ _ (fun kv hkv => (hb kv hkv).2)
      refine ⟨by simp [sendStart]; omega, ?_, ?_, ?_⟩
      · intro kv hkv
        simp only [sendStart] at hkv
        rcases dictSet_mem _ _ _ _ hkv with rfl | hold
        · simp [sendStart]; omega
        · have := hb kv hold
          simp [sendStart]; omega
      · intro kv hkv e he
        simp only [sendStart] at hkv
        rcases dictSet_mem _ _ _ _ hkv with rfl | hold
        · simp at he
        · exact hx kv hold e he
      · show (((sendStart st method params).1).pending.map Prod.fst).Nodup
        have hkeys : ((sendStart st method params).1).pending.map Prod.fst =
            st.pending.map Prod.fst ++ [st.nextId] := by
          simp only [sendStart]
          exact dictSet_keys_of_absent _ _ _ hlu
        rw [hkeys]
        refine List.Nodup.append hnd (List.nodup_singleton _) ?_
        intro a ha ha'
        simp at ha'
        obtain ⟨kv, hkv, hfst⟩ := List.mem_map.mp ha
        have := (hb kv hkv).2
        omega
  | receive beh l st2 log h =>
      cases l with
      | malformed =>
          simp only [dispatchMessage, Except.ok.injEq, Prod.mk.injEq] at h
          rw [← h.1]
          exact ⟨h1, hb, hx, hnd⟩
      | nonObject v => simp [dispatchMessage] at h
      | wellFormed m =>
          cases hid : m.id with
          | none =>
              simp only [dispatchMessage, hid] at h
              split at h <;>
                · simp only [Except.ok.injEq, Prod.mk.injEq] at h
                  rw [← h.1]
                  exact ⟨h1, hb, hx, hnd⟩
          | some v =>
              cases v with
              | null =>
                  simp only [dispatchMessage, hid] at h
                  split at h <;>
                    · simp only [Except.ok.injEq, Prod.mk.injEq] at h
                      rw [← h.1]
                      exact ⟨h1, hb, hx, hnd⟩
              | arr xs => simp [dispatchMessage, hid] at h
              | obj fs => simp [dispatchMessage, hid] at h
              | num n =>
                  simp only [dispatchMessage, hid, Except.ok.injEq] at h
                  have hst : st' = (resolveById st m).1 :=
                    (congrArg Prod.fst h).symm
                  rw [hst]
                  exact inv_resolveById ⟨h1, hb, hx, hnd⟩ m
              | bool b =>
                  simp only [dispatchMessage, hid, Except.ok.injEq] at h
                  have hst : st' = (resolveById st m).1 :=
                    (congrArg Prod.fst h).symm
                  rw [hst]
                  exact inv_resolveById ⟨h1, hb, hx, hnd⟩ m
              | str a =>
                  simp only [dispatchMessage, hid, Except.ok.injEq] at h
                  have hst : st' = (resolveById st m).1 :=
                    (congrArg Prod.fst h).symm
                  rw [hst]
                  exact inv_resolveById ⟨h1, hb, hx, hnd⟩ m
  | closeLoop =>
      refine ⟨h1, ?_, ?_, ?_⟩
      · intro kv hkv
        obtain ⟨kv', hkv', heq⟩ := List.mem_map.mp hkv
        have := hb kv' hkv'
        rw [← heq]
        exact this
      · intro kv hkv e he
        obtain ⟨kv', hkv', heq⟩ := List.mem_map.mp hkv
        rw [← heq] at he
        simp only at he
        by_cases hd : kv'.2.done
        · rw [if_pos hd] at he
          exact hx kv' hkv' e he
        · rw [if_neg hd] at he
          injection he with he'
          exact he'.symm
      · show ((finalizePending st.pending).map Prod.fst).Nodup
        rw [finalizePending_keys]
        exact hnd
  | senderCleanup k =>
      refine ⟨h1, ?_, ?_, ?_⟩
      · intro kv hkv
        exact hb kv ((dictPop_sublist st.pending k).mem hkv)
      · intro kv hkv e he
        exact hx kv ((dictPop_sublist st.pending k).mem hkv) e he
      · exact hnd.sublist ((dictPop_sublist st.pending k).map Prod.fst)
  | register h => exact ⟨h1, hb, hx, hnd⟩
  | deregister h => exact ⟨h1, hb, hx, hnd⟩

theorem inv_of_reachable {st : ClientState} (h : Reachable st) : Inv st := by
  induction h with
  | init => exact inv_init
  | step _ hstep ih => exact inv_step ih hstep

theorem runSends_ids (reqs : List (String × Option JVal)) :
    ∀ st : ClientState, (runSends st reqs).2 =
      (List.range reqs.length).map (fun j : Nat => st.nextId + (j : Int)) := by
  induction reqs with
  | nil => intro st; rfl
  | cons r rest ih =>
      intro st
      obtain ⟨m, p⟩ := r
      have hcons : (runSends st ((m, p) :: rest)).2 =
          st.nextId :: (runSends (sendStart st m p).1 rest).2 := rfl
      rw [hcons, ih]
      have hn : ((sendStart st m p).1).nextId = st.nextId + 1 := rfl
      rw [hn, List.length_cons, List.range_succ_eq_map, List.map_cons,
          List.map_map]
      refine congrArg₂ List.cons (by simp) ?_
      refine List.map_congr_left ?_
      intro a _
      simp [Function.comp]
      ring

theorem runSends_ids_sorted (reqs : List (String × Option JVal))
    (st : ClientState) : List.Pairwise (· < ·) (runSends st reqs).2 := by
  rw [runSends_ids]
  refine List.Pairwise.map _ ?_ (List.pairwise_lt_range reqs.length)
  intro a b hab
  omega

theorem dispatchMessage_event_init (beh : Nat → Msg → HAction) (m : Msg)
    (hid : m.id = none) :
    dispatchMessage beh ClientState.init (.wellFormed m) =
      .ok (ClientState.init, []) := by
  by_cases hm : m.method.isSome <;>
    simp [dispatchMessage, hid, hm, ClientState.init, dispatchHandlers,
      dispatchHandlersAux]

/-- C1: for concurrent sends awaiting distinct pending ids, delivering any
stream of responses in any order (none of whose lines raises out of
dispatch — a crashing line kills the loop and only produces connection
closure, which this claim explicitly excludes) stores, in each call's slot,
exactly the first response whose `id` lands on that call's request id; that
response indeed carries the call's own id (no cross-delivery), and the
awaiting `send` then completes with the outcome derived from exactly that
response.  A slot with no matching response stays pending (that call can
only time out or hit connection closure). -/
theorem C1_response_correlation (beh : Nat → Msg → HAction)
    (st : ClientState) (items : List RxItem) (k : Int)
    (hnc : ∀ it ∈ items, itemCrashes it = false)
    (hk : dictLookup st.pending k = some .pending) :
    (∀ m, firstResponseFor items k = some m →
        dictLookup (rxRun beh st items).pending k = some (.result m) ∧
        msgIdKey m = some k ∧
        sendFinish (rxRun beh st items) k false =
          some ({ rxRun beh st items with
                    pending := dictPop (rxRun beh st items).pending k },
                if m.type = some "error"
                then .bidiError (m.error.getD "unknown")
                               (m.message.getD "Unknown error")
                else .ok m.result)) ∧
    (firstResponseFor items k = none →
        dictLookup (rxRun beh st items).pending k = some .pending) := by
  have hmain := rxRun_lookup_pending beh items st k hnc hk
  constructor
  · intro m hm
    rw [hm] at hmain
    refine ⟨hmain, firstResponseFor_id items k m hm, ?_⟩
    simp only [sendFinish, hmain]
    by_cases ht : m.type = some "error" <;> simp [sendAwait, ht]
  · intro hm
    rw [hm] at hmain
    exact hmain

/-- Witness for C1: two sends allocate ids 1 and 2; the transport answers in
scrambled order (id 2 first, then id 1); the slot for id 1 nevertheless holds
the id-1 response, which lands on key 1. -/
theorem C1_response_correlation_witness :
    dictLookup
        (rxRun (fun _ _ => HAction.ok)
          (sendStart (sendStart ClientState.init "a" none).1 "b" none).1
          [RxItem.line (Line.wellFormed
             { id := some (JVal.num 2), result := some (JVal.str "r2") }),
           RxItem.line (Line.wellFormed
             { id := some (JVal.num 1), result := some (JVal.str "r1") })]).pending
        1 =
      some (FutureState.result
        { id := some (JVal.num 1), result := some (JVal.str "r1") }) ∧
    msgIdKey { id := some (JVal.num 1), result := some (JVal.str "r1") } =
      some 1 := by
  have h := (C1_response_correlation (fun _ _ => HAction.ok)
    (sendStart (sendStart ClientState.init "a" none).1 "b" none).1
    [RxItem.line (Line.wellFormed
       { id := some (JVal.num 2), result := some (JVal.str "r2") }),
     RxItem.line (Line.wellFormed
       { id := some (JVal.num 1), result := some (JVal.str "r1") })]
    1 (by decide) rfl).1
    { id := some (JVal.num 1), result := some (JVal.str "r1") } rfl
  exact ⟨h.1, h.2.1⟩

/-- C2: a concluded `send` wait has exactly one of four shapes — a returned
result (only from a genuine non-error response, never as a disguised
failure), a `BiDiError` (exactly when the matching response has
`type == "error"`), a `TimeoutError` (exactly when the future was still
pending at the deadline), or the future's stored exception re-raised; and in
every reachable client state the only exception ever stored in a slot is the
connection-closed one, so the three failures are protocol error, timeout and
connection-closed, all distinguishable. -/
theorem C2_send_failure_taxonomy :
    (∀ fut d, sendAwait fut d = some .timedOut ↔
        fut = .pending ∧ d = true) ∧
    (∀ fut d e, sendAwait fut d = some (.futureExn e) ↔ fut = .exn e) ∧
    (∀ fut d em es, sendAwait fut d = some (.bidiError em es) ↔
        ∃ m, fut = .result m ∧ m.type = some "error" ∧
          em = m.error.getD "unknown" ∧ es = m.message.getD "Unknown error") ∧
    (∀ fut d r, sendAwait fut d = some (.ok r) ↔
        ∃ m, fut = .result m ∧ m.type ≠ some "error" ∧ r = m.result) ∧
    (∀ st k e, Reachable st → dictLookup st.pending k = some (.exn e) →
        e = .connectionError) := by
  refine ⟨?_, ?_, ?_, ?_, ?_⟩
  · intro fut d
    cases fut with
    | pending => cases d <;> simp [sendAwait]
    | result m => by_cases ht : m.type = some "error" <;> simp [sendAwait, ht]
    | exn e => simp [sendAwait]
  · intro fut d e
    cases fut with
    | pending => cases d <;> simp [sendAwait]
    | result m => by_cases ht : m.type = some "error" <;> simp [sendAwait, ht]
    | exn e' => simp [sendAwait]
  · intro fut d em es
    cases fut with
    | pending => cases d <;> simp [sendAwait]
    | result m =>
        by_cases ht : m.type = some "error"
        · simp only [sendAwait, if_pos ht]
          aesop
        · simp [sendAwait, ht]
    | exn e' => simp [sendAwait]
  · intro fut d r
    cases fut with
    | pending => cases d <;> simp [sendAwait]
    | result m =>
        by_cases ht : m.type = some "error"
        · simp [sendAwait, ht]
        · simp only [sendAwait, if_neg ht]
          aesop
    | exn e' => simp [sendAwait]
  · intro st k e hre hlu
    obtain ⟨_, _, hx, _⟩ := inv_of_reachable hre
    exact hx (k, .exn e) (dictLookup_mem _ _ _ hlu) e rfl

/-- Witness for C2: the three failure shapes at concrete inputs, including a
reachable state (one send outstanding, then connection closure) whose stored
exception is the connection-closed one. -/
theorem C2_send_failure_taxonomy_witness :
    sendAwait .pending true = some .timedOut ∧
    sendAwait (.exn .connectionError) false =
      some (.futureExn .connectionError) ∧
    PyExn.connectionError = PyExn.connectionError := by
  refine ⟨(C2_send_failure_taxonomy.1 .pending true).mpr ⟨rfl, rfl⟩,
    (C2_send_failure_taxonomy.2.1 (.exn .connectionError) false
      .connectionError).mpr rfl,
    C2_send_failure_taxonomy.2.2.2.2 _ 1 .connectionError
      (Reachable.step (Reachable.step Reachable.init
        (Step.send ClientState.init "ping" none))
        (Step.closeLoop (sendStart ClientState.init "ping" none).1)) rfl⟩

/-- C3: done wins over timeout, in both waits.  In `BiDiClient.send`, a
future whose result (or exception) is already stored when the deadline fires
yields that stored outcome, never the timeout; in `_EventLoopThread.run`, a
completed coroutine yields its value, and a coroutine that raised gets its
own exception re-raised unchanged, even at the deadline; a concluded wait
delivers exactly one outcome (never both, never neither), and the timeout
outcome occurs only with the future still pending. -/
theorem C3_done_wins_over_timeout :
    (∀ resp : Msg, sendAwait (.result resp) true = sendAwait (.result resp) false ∧
        sendAwait (.result resp) true ≠ some .timedOut) ∧
    (∀ e, sendAwait (.exn e) true = some (.futureExn e)) ∧
    (∀ fut d, fut.done = true ∨ d = true → ∃! o, sendAwait fut d = some o) ∧
    (∀ v, eltRun true (.result v) true = some (.ok v)) ∧
    (∀ e, eltRun true (.exn e) true = some (.raised e)) ∧
    (∀ d, eltRun true .pending d = if d then some .timedOut else none) := by
  refine ⟨?_, fun e => rfl, ?_, fun v => rfl, fun e => rfl, fun d => rfl⟩
  · intro resp
    by_cases ht : resp.type = some "error" <;> simp [sendAwait, ht]
  · intro fut d h
    cases fut with
    | pending =>
        rcases h with h | h
        · simp [FutureState.done] at h
        · subst h
          exact ⟨.timedOut, rfl, fun o ho => by
            simp [sendAwait] at ho; exact ho.symm⟩
    | result m =>
        by_cases ht : m.type = some "error"
        · exact ⟨.bidiError (m.error.getD "unknown") (m.message.getD "Unknown error"),
            by simp [sendAwait, ht], fun o ho => by simp [sendAwait, ht] at ho; exact ho.symm⟩
        · exact ⟨.ok m.result,
            by simp [sendAwait, ht], fun o ho => by simp [sendAwait, ht] at ho; exact ho.symm⟩
    | exn e =>
        exact ⟨.futureExn e, rfl, fun o ho => by
          simp [sendAwait] at ho; exact ho.symm⟩

/-- Witness for C3: a response stored at the instant the deadline fires is
delivered, not turned into a timeout, and the concluded wait has exactly one
outcome. -/
theorem C3_done_wins_over_timeout_witness :
    (sendAwait
        (.result { id := some (JVal.num 1), result := some (JVal.str "r") })
        true =
      sendAwait
        (.result { id := some (JVal.num 1), result := some (JVal.str "r") })
        false) ∧
    (∃! o, sendAwait
        (.result { id := some (JVal.num 1), result := some (JVal.str "r") })
        true = some o) := by
  exact ⟨(C3_done_wins_over_timeout.1 _).1,
    C3_done_wins_over_timeout.2.2.1
      (.result { id := some (JVal.num 1), result := some (JVal.str "r") })
      true (Or.inl rfl)⟩

/-- C4: when the transport closes with requests outstanding, the receive
loop's `finally` block resolves every still-pending slot with the
connection-closed failure, leaves already-resolved slots untouched (so each
slot is resolved exactly once), leaves no slot pending (no caller blocks
forever), each such awaiting `send` then completes with the
connection-closed failure while its `finally` pops its slot, and popping
every key empties the correlation table. -/
theorem C4_connection_closed_fanout (beh : Nat → Msg → HAction)
    (st : ClientState) (items : List RxItem) :
    (∀ k, dictLookup (rxRun beh st items).pending k = some .pending →
        dictLookup ((receiveLoop beh st items).1).pending k =
          some (.exn .connectionError)) ∧
    (∀ k f, dictLookup (rxRun beh st items).pending k = some f →
        f.done = true →
        dictLookup ((receiveLoop beh st items).1).pending k = some f) ∧
    (∀ k f, dictLookup ((receiveLoop beh st items).1).pending k = some f →
        f ≠ .pending) ∧
    (∀ k, dictLookup ((receiveLoop beh st items).1).pending k =
          some (.exn .connectionError) →
        ∀ d, sendFinish ((receiveLoop beh st items).1) k d =
          some ({ (receiveLoop beh st items).1 with
                    pending := dictPop ((receiveLoop beh st items).1).pending k },
                .futureExn .connectionError)) ∧
    List.foldl dictPop ((receiveLoop beh st items).1).pending
        (((receiveLoop beh st items).1).pending.map Prod.fst) = [] := by
  have hps : ((receiveLoop beh st items).1).pending =
      finalizePending (rxRun beh st items).pending := rfl
  refine ⟨?_, ?_, ?_, ?_, foldl_dictPop_keys _⟩
  · intro k hk
    rw [hps, dictLookup_finalize, hk]
    rfl
  · intro k f hk hd
    rw [hps, dictLookup_finalize, hk]
    simp [hd]
  · intro k f hk
    rw [hps, dictLookup_finalize] at hk
    cases hlu : dictLookup (rxRun beh st items).pending k with
    | none => rw [hlu] at hk; simp at hk
    | some f' =>
        rw [hlu] at hk
        rw [Option.map_some'] at hk
        injection hk with hk'
        intro hfp
        subst hfp
        by_cases hd : f'.done
        · rw [if_pos hd] at hk'
          rw [hk'] at hd
          simp [FutureState.done] at hd
        · rw [if_neg hd] at hk'
          exact FutureState.noConfusion hk'
  · intro k hk d
    simp [sendFinish, hk, sendAwait]

/-- Witness for C4: two sends outstanding, the transport closes with no
responses delivered; slot 1 is resolved with the connection-closed failure
and popping both keys empties the table. -/
theorem C4_connection_closed_fanout_witness :
    dictLookup
        ((receiveLoop (fun _ _ => HAction.ok)
          (sendStart (sendStart ClientState.init "a" none).1 "b" none).1
          []).1).pending 1 =
      some (FutureState.exn PyExn.connectionError) ∧
    List.foldl dictPop
        ((receiveLoop (fun _ _ => HAction.ok)
          (sendStart (sendStart ClientState.init "a" none).1 "b" none).1
          []).1).pending
        (((receiveLoop (fun _ _ => HAction.ok)
          (sendStart (sendStart ClientState.init "a" none).1 "b" none).1
          []).1).pending.map Prod.fst) = [] := by
  have h := C4_connection_closed_fanout (fun _ _ => HAction.ok)
    (sendStart (sendStart ClientState.init "a" none).1 "b" none).1 []
  exact ⟨h.1 1 rfl, h.2.2.2.2⟩

/-- C5: dispatching one event invokes every handler registered at that
moment exactly once, in registration order (the invocation log equals the
registry), and a handler that raises is swallowed without stopping the
remaining handlers or changing the registry — provided no handler mutates
the registry during dispatch (that case is the separate
removal-during-dispatch claim). -/
theorem C5_event_fanout (beh : Nat → Msg → HAction) (st : ClientState)
    (m : Msg) (hid : m.id = none) (hmeth : m.method.isSome = true)
    (hbeh : ∀ h ∈ st.handlers, beh h m = .ok ∨ beh h m = .raise) :
    dispatchMessage beh st (.wellFormed m) = .ok (st, st.handlers) := by
  simp only [dispatchMessage, hid, hmeth, if_pos]
  rw [dispatchHandlers_no_removal beh m st.handlers hbeh]

/-- Witness for C5: three handlers, the middle one raises; all three are
invoked, in registration order, and the registry is unchanged. -/
theorem C5_event_fanout_witness :
    dispatchMessage (fun h _ => if h = 2 then HAction.raise else HAction.ok)
      { nextId := 1, pending := [], handlers := [1, 2, 3] }
      (.wellFormed { method := some "x.y" }) =
      .ok ({ nextId := 1, pending := [], handlers := [1, 2, 3] }, [1, 2, 3]) := by
  exact C5_event_fanout (fun h _ => if h = 2 then HAction.raise else HAction.ok)
    { nextId := 1, pending := [], handlers := [1, 2, 3] }
    { method := some "x.y" } rfl rfl (by decide)

/-- C6: refuted — in `_dispatch_message` only `json.loads` is inside the
`try`, so a line that is valid JSON but not an object (here the list
`[1, 2]`) makes `data.get("id")` raise `AttributeError` out of the
decode/dispatch step; `_receive_loop` catches only cancellation and I/O
errors, so the exception kills the loop.  With request 1 outstanding and the
stream `[non-object line, response for id 1]`, the response is never
delivered — the `finally` block resolves slot 1 with the connection-closed
failure and the `AttributeError` escapes the loop — whereas the same stream
without the bad line resolves slot 1 with the response. -/
theorem C6_nonobject_line_kills_loop :
    dispatchMessage (fun _ _ => HAction.ok) ClientState.init
        (Line.nonObject (JVal.arr [JVal.num 1, JVal.num 2])) =
      Except.error (PyExn.other "AttributeError") ∧
    receiveLoop (fun _ _ => HAction.ok)
        (sendStart ClientState.init "a" none).1
        [RxItem.line (Line.nonObject (JVal.arr [JVal.num 1, JVal.num 2])),
         RxItem.line (Line.wellFormed
           { id := some (JVal.num 1), result := some (JVal.str "r") })] =
      ({ nextId := 2, pending := [(1, FutureState.exn PyExn.connectionError)],
         handlers := [] }, [], some (PyExn.other "AttributeError")) ∧
    receiveLoop (fun _ _ => HAction.ok)
        (sendStart ClientState.init "a" none).1
        [RxItem.line (Line.wellFormed
           { id := some (JVal.num 1), result := some (JVal.str "r") })] =
      ({ nextId := 2,
         pending := [(1, FutureState.result
           { id := some (JVal.num 1), result := some (JVal.str "r") })],
         handlers := [] }, [], none) :=
  ⟨rfl, rfl, rfl⟩

/-- C7: refuted — contrary to the pre-ready buffering contract, `connect`
replays the buffered `_pre_ready_lines` into the freshly built client, whose
handler registry is necessarily still empty (no caller can register before
`connect` returns the client): for every sequence of buffered event lines
the replay invokes no handler at all and leaves the client in its initial
state; the buffer is then deleted, so the buffered events are lost to any
handler attached afterwards. -/
theorem C7_preready_replay_reaches_no_handler (beh : Nat → Msg → HAction)
    (events : List (String × JVal)) :
    connectClient beh (some (events.map (fun ev =>
        Line.wellFormed { method := some ev.1, params := some ev.2 }))) =
      .ok (ClientState.init, []) := by
  show replayLines beh ClientState.init _ = _
  induction events with
  | nil => rfl
  | cons ev rest ih =>
      have hd : dispatchMessage beh ClientState.init
          (Line.wellFormed { method := some ev.1, params := some ev.2 }) =
          .ok (ClientState.init, []) :=
        dispatchMessage_event_init beh _ rfl
      simp only [List.map_cons, replayLines, hd, ih]
      rfl

/-- C8: the dispatch loop iterates the live handler list, so a handler that
removes itself shifts the list under the iterator: with handlers `[1, 2]`
and handler 1 removing itself, only handler 1 is invoked — handler 2, though
registered when the dispatch began, is skipped. -/
theorem C8_removal_during_dispatch_skips_next :
    dispatchMessage (fun h _ => if h = 1 then HAction.remove 1 else HAction.ok)
      { nextId := 1, pending := [], handlers := [1, 2] }
      (.wellFormed { method := some "x.y" }) =
      .ok ({ nextId := 1, pending := [], handlers := [2] }, [1]) := rfl

/-- C9: request ids are allocated from `_next_id`, which starts at 1, so a
sequence of sends gets the strictly increasing positive ids 1, 2, 3, …; in
every reachable state the next id to be allocated is not a key of the
pending table (an id is never reused while pending) and the pending keys are
distinct; and a second response carrying the id of an already-resolved slot
is a complete no-op. -/
theorem C9_id_allocation (st : ClientState) (hre : Reachable st) :
    1 ≤ st.nextId ∧
    dictLookup st.pending st.nextId = none ∧
    (st.pending.map Prod.fst).Nodup ∧
    (∀ reqs : List (String × Option JVal),
        (runSends ClientState.init reqs).2 =
          (List.range reqs.length).map (fun j : Nat => 1 + (j : Int)) ∧
        List.Pairwise (· < ·) (runSends ClientState.init reqs).2) ∧
    (∀ (beh : Nat → Msg → HAction) (m : Msg) (k : Int) (f : FutureState),
        msgIdKey m = some k → dictLookup st.pending k = some f →
        f.done = true →
        dispatchMessage beh st (.wellFormed m) = .ok (st, [])) := by
  obtain ⟨h1, hb, hx, hnd⟩ := inv_of_reachable hre
  refine ⟨h1, dictLookup_none_of_bound _ _ (fun kv hkv => (hb kv hkv).2),
    hnd, ?_, ?_⟩
  · intro reqs
    exact ⟨runSends_ids reqs ClientState.init, runSends_ids_sorted reqs _⟩
  · intro beh m k f hkey hlu hd
    exact dispatchMessage_noop_done beh st m k f hkey hlu hd

/-- Witness for C9: after one send from a fresh client (a reachable state),
the next id (2) is not pending, and a duplicate response for the
already-resolved id 1 is a no-op. -/
theorem C9_id_allocation_witness :
    dictLookup ((sendStart ClientState.init "ping" none).1).pending
        ((sendStart ClientState.init "ping" none).1).nextId = none := by
  exact (C9_id_allocation (sendStart ClientState.init "ping" none).1
    (Reachable.step Reachable.init
      (Step.send ClientState.init "ping" none))).2.1

/-- C10: calling `_EventLoopThread.run` before `start` (no background loop
exists) raises `RuntimeError` immediately, whatever the submitted
operation's state and whether or not any deadline fired — it neither hangs
nor schedules the operation. -/
theorem C10_run_before_start (fut : CFutureState) (deadlineFired : Bool) :
    eltRun false fut deadlineFired = some .runtimeError := rfl

end Vibium
